import Mathlib

/-!
Shallow embedding of `create_tricktakers_csv.py` (bga-tricktakers).

The transform pipeline of the script is embedded as pure Lean functions:
Python ints become `Int`, absent dictionary keys (`dict.get` returning
`None`) become `Option`, and steps that can raise a Python exception
return `Except String`.
-/

/-- Model of Python's in-place `numbers.sort()` (line 30): the list object
afterwards holds the same elements sorted ascending.  We use insertion
sort by `≤`; on `Int` any ascending sort yields the same list. -/
def pySort (l : List Int) : List Int := l.insertionSort (· ≤ ·)

/-- The scanning loop of `list_to_ranges` (lines 31-41): `start`/`finish`
are the Python loop variables `start`/`end`; the argument list is the
remaining iterator `numbers[1:]`.  The final `ranges.append((start, end))`
is the base case. -/
def scanRanges (start finish : Int) : List Int → List (Int × Int)
  | [] => [(start, finish)]
  | n :: rest =>
    if n = finish + 1 then scanRanges start n rest
    else (start, finish) :: scanRanges n n rest

/-- Function `list_to_ranges` (lines 14-42).  Python returns `[]` for an empty list
before sorting; since `pySort [] = []`, folding that early return into the
match on the sorted list is the same function. -/
def list_to_ranges (numbers : List Int) : List (Int × Int) :=
  match pySort numbers with
  | [] => []
  | x :: rest => scanRanges x x rest

/-- Function `list_to_ranges` as called from `process_data` (line 98), where
`item.get('player_numbers')` may be `None`: Python's `if not numbers`
(line 28) is true for `None` as well as for `[]`, so a missing field
yields `[]` without raising. -/
def list_to_ranges_opt : Option (List Int) → List (Int × Int)
  | none => []
  | some l => list_to_ranges l

/-- Function `format_range` (lines 45-56):
`f'{min}-{max}' if min_players != max_players else str(min_players)`. -/
def format_range (p : Int × Int) : String :=
  if p.1 ≠ p.2 then toString p.1 ++ "-" ++ toString p.2 else toString p.1

/-- Function `format_range_list` (lines 59-69): `' or '.join(...)` — the empty
join is `""`, a singleton joins to itself, otherwise the separator is put
between consecutive items. -/
def format_range_list : List (Int × Int) → String
  | [] => ""
  | [p] => format_range p
  | p :: rest => format_range p ++ " or " ++ format_range_list rest

/-- Function `is_tricktaker` (lines 72-82):
`any(tag == 220 for tag, _ in tag_tuple_list)`. -/
def is_tricktaker (tag_tuple_list : List (Int × Int)) : Bool :=
  tag_tuple_list.any (fun t => t.1 == 220)

/-- The inline status normalization of `process_data` (line 100):
`'alpha' if item.get('status') == 'private' else item.get('status')`. -/
def normalize_status (s : Option String) : Option String :=
  if s = some "private" then some "alpha" else s

/-- A game record as read from the JSON payload.  Each field models
`item.get(key)`: `none` is a missing key (Python `None`). -/
structure Record where
  display_name_en : Option String
  player_numbers : Option (List Int)
  tags : Option (List (Int × Int))
  status : Option String
deriving DecidableEq

/-- An output tuple `(name, status, player_numbers)` as appended by
`process_data` (line 102): name and status may be Python `None`. -/
abbrev Row := Option String × Option String × String

/-- The row `process_data` builds for one record (lines 97-102). -/
def toRow (item : Record) : Row :=
  (item.display_name_en, normalize_status item.status,
    format_range_list (list_to_ranges_opt item.player_numbers))

/-- Whether a record passes the tag filter; used only to characterize the
records `process_data` retains.  (`process_data` itself raises on a
missing `tags` key rather than returning `false`; see `process_data`.) -/
def classified (item : Record) : Bool :=
  match item.tags with
  | some t => is_tricktaker t
  | none => false

/-- Function `process_data` (lines 85-103).  Records are processed in order; when
`item.get('tags')` is `None`, the generator inside `is_tricktaker`
unpacks over `None` and Python raises `TypeError`, which propagates. -/
def process_data : List Record → Except String (List Row)
  | [] => .ok []
  | item :: rest =>
    match item.tags with
    | none => .error "TypeError: cannot unpack non-iterable NoneType object"
    | some t =>
      match process_data rest with
      | .error e => .error e
      | .ok rows => .ok (if is_tricktaker t then toRow item :: rows else rows)

/-- Python's string comparison: code-point lexicographic (a proper
prefix is smaller), hence case-sensitive.  `strLe as bs` is `as <= bs`
on the code-point lists. -/
def strLe : List Char → List Char → Bool
  | [], _ => true
  | _ :: _, [] => false
  | a :: as, b :: bs =>
    if a.toNat < b.toNat then true
    else if b.toNat < a.toNat then false
    else strLe as bs

/-- The sort key of `write_to_csv` (line 120): `key=lambda x: x[0]`.
`getD ""` is only a totalization device; `write_to_csv` returns `.ok`
only when no compared name is `None`, and there `nameKey` is the name. -/
def nameKey (r : Row) : String := r.1.getD ""

/-- The row ordering used by `sorted(data, key=lambda x: x[0])`. -/
def rowLe (a b : Row) : Prop :=
  strLe (nameKey a).data (nameKey b).data = true

instance : DecidableRel rowLe := fun a b =>
  inferInstanceAs (Decidable (strLe (nameKey a).data (nameKey b).data = true))

instance : IsTotal Row rowLe := ⟨by
  intro a b
  simp only [rowLe]
  generalize (nameKey a).data = as
  generalize (nameKey b).data = bs
  induction as generalizing bs with
  | nil => exact Or.inl rfl
  | cons x xs ih =>
    cases bs with
    | nil => exact Or.inr rfl
    | cons y ys =>
      rcases Nat.lt_trichotomy x.toNat y.toNat with h1 | h1 | h1
      · exact Or.inl (by simp [strLe, h1])
      · rcases ih ys with h | h
        · exact Or.inl (by simp [strLe, h1, h])
        · exact Or.inr (by simp [strLe, h1, h])
      · exact Or.inr (by simp [strLe, h1])⟩

instance : IsTrans Row rowLe := ⟨by
  intro a b c
  simp only [rowLe]
  generalize (nameKey a).data = as
  generalize (nameKey b).data = bs
  generalize (nameKey c).data = cs
  induction as generalizing bs cs with
  | nil => intro _ _; rfl
  | cons x xs ih =>
    intro hab hbc
    cases bs with
    | nil => simp [strLe] at hab
    | cons y ys =>
      cases cs with
      | nil => simp [strLe] at hbc
      | cons z zs =>
        rcases Nat.lt_trichotomy x.toNat y.toNat with h1 | h1 | h1
        · rcases Nat.lt_trichotomy y.toNat z.toNat with h2 | h2 | h2
          · simp [strLe, show x.toNat < z.toNat by omega]
          · simp [strLe, show x.toNat < z.toNat by omega]
          · simp [strLe, h2, show ¬ y.toNat < z.toNat by omega] at hbc
        · rcases Nat.lt_trichotomy y.toNat z.toNat with h2 | h2 | h2
          · simp [strLe, show x.toNat < z.toNat by omega]
          · have hab' : strLe xs ys = true := by simpa [strLe, h1] using hab
            have hbc' : strLe ys zs = true := by simpa [strLe, h2] using hbc
            simp [strLe, show x.toNat = z.toNat by omega]
            exact ih ys zs hab' hbc'
          · simp [strLe, h2, show ¬ y.toNat < z.toNat by omega] at hbc
        · simp [strLe, h1, show ¬ x.toNat < y.toNat by omega] at hab⟩

/-- One CSV record as written by `csv.writer`: Python's csv module writes
`None` as the empty field. -/
def renderRow (r : Row) : List String := [r.1.getD "", r.2.1.getD "", r.2.2]

/-- The header row written first (line 119). -/
def csvHeader : List String := ["Name", "Status", "Players"]

/-- Function `write_to_csv` (lines 106-120), modelled as the list of CSV records
written (header first, then the data rows sorted by name).  Python's
`sorted` raises `TypeError` when it compares a `None` key with another
key; with two or more rows every row takes part in at least one
comparison, with at most one row no comparison happens.  Hence the guard:
a `None` name among two or more rows raises, otherwise the rows are
written sorted by name. -/
def write_to_csv (rows : List Row) : Except String (List (List String)) :=
  if 2 ≤ rows.length ∧ rows.any (fun r => r.1.isNone) then
    .error "TypeError: not supported between instances of NoneType and str"
  else
    .ok (csvHeader :: (rows.insertionSort rowLe).map renderRow)

/-- The value of a record's `player_numbers` field after `process_data`
has derived its row: `list_to_ranges` receives the record's own list
object and sorts it in place with `numbers.sort()` (line 30), except when
the field is missing or the list is empty (the early return at line 28
fires before the sort). -/
def list_to_ranges_effect : Option (List Int) → Option (List Int)
  | none => none
  | some l => if l = [] then some l else some (pySort l)

/-- A record's fields after its output row has been derived. -/
def record_after_process (rec : Record) : Record :=
  { rec with player_numbers := list_to_ranges_effect rec.player_numbers }

/-! ## Theorems -/

/-- Claim C2: `is_tricktaker` is true iff some tag's category component is
220; the value component never matters.  The listed instances hold. -/
theorem is_tricktaker_spec :
    (∀ tags : List (Int × Int), (is_tricktaker tags = true ↔ ∃ p ∈ tags, p.1 = 220)) ∧
    is_tricktaker [(220, 1)] = true ∧
    is_tricktaker [(221, 1)] = false ∧
    is_tricktaker [] = false := by
  refine ⟨?_, rfl, rfl, rfl⟩
  intro tags
  simp [is_tricktaker, List.any_eq_true]

/-- Claim C4: the status normalizer sends `"private"` to `"alpha"` and
leaves every other value (including `None` and `"public"`) unchanged. -/
theorem normalize_status_spec :
    normalize_status (some "private") = some "alpha" ∧
    normalize_status (some "public") = some "public" ∧
    normalize_status none = none ∧
    (∀ s : Option String, s ≠ some "private" → normalize_status s = s) := by
  refine ⟨rfl, rfl, rfl, ?_⟩
  intro s hs
  simp [normalize_status, hs]

/-- Closed instance of `normalize_status_spec`'s pass-through clause. -/
theorem normalize_status_spec_witness :
    normalize_status (some "beta") = some "beta" :=
  normalize_status_spec.2.2.2 (some "beta") (by decide)

/-- Claim C5: a one-value range renders as the value alone, a wider one as
`start-end`; lists join with `" or "` and the empty list renders as `""`. -/
theorem format_spec :
    (∀ a : Int, format_range (a, a) = toString a) ∧
    (∀ a b : Int, a ≠ b → format_range (a, b) = toString a ++ "-" ++ toString b) ∧
    (∀ p q rest, format_range_list (p :: q :: rest) =
      format_range p ++ " or " ++ format_range_list (q :: rest)) ∧
    format_range_list [] = "" ∧
    format_range_list [(1, 5)] = "1-5" ∧
    format_range_list [(1, 3), (5, 7)] = "1-3 or 5-7" := by
  refine ⟨?_, ?_, ?_, rfl, rfl, rfl⟩
  · intro a; simp [format_range]
  · intro a b hab; simp [format_range, hab]
  · intro p q rest
    rfl

/-- Closed instance of `format_spec`'s two-value clause. -/
theorem format_spec_witness :
    format_range (2, 4) = toString (2 : Int) ++ "-" ++ toString (4 : Int) :=
  format_spec.2.1 2 4 (by decide)

/-- Claim C10: after sorting, a duplicate (the next value equals the
current run's end) closes the current range and opens a new one at that
value; in particular `list_to_ranges [1, 2, 2, 3] = [(1, 2), (2, 3)]`. -/
theorem duplicates_spec :
    list_to_ranges [1, 2, 2, 3] = [(1, 2), (2, 3)] ∧
    ∀ (s e : Int) (rest : List Int),
      scanRanges s e (e :: rest) = (s, e) :: scanRanges e e rest := by
  refine ⟨by decide, ?_⟩
  intro s e rest
  have h : ¬(e = e + 1) := by omega
  simp [scanRanges, h]

/-- The first range `scanRanges` emits starts at `start`, and its upper
bound is at least `finish`. -/
theorem scanRanges_first (rest : List Int) : ∀ s f : Int,
    ∃ b R, scanRanges s f rest = (s, b) :: R ∧ f ≤ b := by
  induction rest with
  | nil => exact fun s f => ⟨f, [], rfl, le_refl f⟩
  | cons n rest ih =>
    intro s f
    by_cases h : n = f + 1
    · obtain ⟨b, R, heq, hb⟩ := ih s n
      refine ⟨b, R, ?_, by omega⟩
      simp only [scanRanges]
      rw [if_pos h, heq]
    · refine ⟨f, scanRanges n n rest, ?_, le_refl f⟩
      simp only [scanRanges]
      rw [if_neg h]

/-- Every range `scanRanges s f rest` emits has lower bound at least `s`
and lower bound at most upper bound, provided `s ≤ f` and the remaining
input is strictly ascending starting above `f`. -/
theorem scanRanges_bounds (rest : List Int) : ∀ s f : Int, s ≤ f →
    List.Chain' (· < ·) (f :: rest) →
    ∀ q ∈ scanRanges s f rest, s ≤ q.1 ∧ q.1 ≤ q.2 := by
  induction rest with
  | nil =>
    intro s f hsf _ q hq
    simp only [scanRanges, List.mem_singleton] at hq
    subst hq
    exact ⟨le_refl s, hsf⟩
  | cons n rest ih =>
    intro s f hsf hch q hq
    obtain ⟨hfn, hch'⟩ := List.chain'_cons.mp hch
    by_cases h : n = f + 1
    · rw [show scanRanges s f (n :: rest) = scanRanges s n rest by
        simp only [scanRanges]; rw [if_pos h]] at hq
      exact ih s n (by omega) hch' q hq
    · rw [show scanRanges s f (n :: rest) = (s, f) :: scanRanges n n rest by
        simp only [scanRanges]; rw [if_neg h]] at hq
      rcases List.mem_cons.mp hq with rfl | hq'
      · exact ⟨le_refl s, hsf⟩
      · have := ih n n (le_refl n) hch' q hq'
        exact ⟨by omega, this.2⟩

/-- The ranges `scanRanges` emits are pairwise separated: each upper
bound is more than one below the next lower bound. -/
theorem scanRanges_pairwise (rest : List Int) : ∀ s f : Int, s ≤ f →
    List.Chain' (· < ·) (f :: rest) →
    List.Pairwise (fun p q : Int × Int => p.2 + 1 < q.1) (scanRanges s f rest) := by
  induction rest with
  | nil => intro s f _ _; simp [scanRanges]
  | cons n rest ih =>
    intro s f hsf hch
    obtain ⟨hfn, hch'⟩ := List.chain'_cons.mp hch
    by_cases h : n = f + 1
    · rw [show scanRanges s f (n :: rest) = scanRanges s n rest by
        simp only [scanRanges]; rw [if_pos h]]
      exact ih s n (by omega) hch'
    · rw [show scanRanges s f (n :: rest) = (s, f) :: scanRanges n n rest by
        simp only [scanRanges]; rw [if_neg h]]
      refine List.pairwise_cons.mpr ⟨?_, ih n n (le_refl n) hch'⟩
      intro q hq
      have hlb := (scanRanges_bounds rest n n (le_refl n) hch' q hq).1
      omega

/-- The ranges `scanRanges s f rest` emits cover exactly the interval
`[s, f]` together with the values of `rest`. -/
theorem scanRanges_cover (rest : List Int) : ∀ s f x : Int, s ≤ f →
    List.Chain' (· < ·) (f :: rest) →
    ((∃ p ∈ scanRanges s f rest, p.1 ≤ x ∧ x ≤ p.2) ↔
      (s ≤ x ∧ x ≤ f) ∨ x ∈ rest) := by
  induction rest with
  | nil => intro s f x _ _; simp [scanRanges]
  | cons n rest ih =>
    intro s f x hsf hch
    obtain ⟨hfn, hch'⟩ := List.chain'_cons.mp hch
    by_cases h : n = f + 1
    · rw [show scanRanges s f (n :: rest) = scanRanges s n rest by
        simp only [scanRanges]; rw [if_pos h]]
      rw [ih s n x (by omega) hch']
      simp only [List.mem_cons]
      constructor
      · rintro (⟨h1, h2⟩ | hr)
        · by_cases hx : x ≤ f
          · exact Or.inl ⟨h1, hx⟩
          · exact Or.inr (Or.inl (by omega))
        · exact Or.inr (Or.inr hr)
      · rintro (⟨h1, h2⟩ | rfl | hr)
        · exact Or.inl ⟨h1, by omega⟩
        · exact Or.inl ⟨by omega, by omega⟩
        · exact Or.inr hr
    · rw [show scanRanges s f (n :: rest) = (s, f) :: scanRanges n n rest by
        simp only [scanRanges]; rw [if_neg h]]
      have hih := ih n n x (le_refl n) hch'
      simp only [List.mem_cons] at hih ⊢
      constructor
      · rintro ⟨p, hp | hp, h1, h2⟩
        · subst hp; exact Or.inl ⟨h1, h2⟩
        · rcases hih.mp ⟨p, hp, h1, h2⟩ with ⟨ha, hb⟩ | hr
          · exact Or.inr (Or.inl (by omega))
          · exact Or.inr (Or.inr hr)
      · rintro (⟨h1, h2⟩ | rfl | hr)
        · exact ⟨(s, f), Or.inl rfl, h1, h2⟩
        · obtain ⟨p, hp, h1, h2⟩ := hih.mpr (Or.inl ⟨le_refl x, le_refl x⟩)
          exact ⟨p, Or.inr hp, h1, h2⟩
        · obtain ⟨p, hp, h1, h2⟩ := hih.mpr (Or.inr hr)
          exact ⟨p, Or.inr hp, h1, h2⟩

/-- Claim C1: on a duplicate-free list (in any order), `list_to_ranges`
returns ranges with lower bound at most upper bound, pairwise separated
by a gap (so non-overlapping, non-adjacent and in ascending order), and
covering exactly the input values. -/
theorem list_to_ranges_spec (l : List Int) (hnd : l.Nodup) :
    (∀ p ∈ list_to_ranges l, p.1 ≤ p.2) ∧
    List.Pairwise (fun p q : Int × Int => p.2 + 1 < q.1) (list_to_ranges l) ∧
    (∀ x : Int, (∃ p ∈ list_to_ranges l, p.1 ≤ x ∧ x ≤ p.2) ↔ x ∈ l) := by
  have hperm : List.Perm (pySort l) l := List.perm_insertionSort _ l
  have hsorted : List.Sorted (· ≤ ·) (pySort l) := List.sorted_insertionSort _ l
  have hnd' : (pySort l).Nodup := hperm.nodup_iff.mpr hnd
  have hlt : List.Sorted (· < ·) (pySort l) := hsorted.lt_of_le hnd'
  cases hs : pySort l with
  | nil =>
    have hl : l = [] := by
      have h2 := hperm
      rw [hs] at h2
      exact (h2.symm.eq_nil)
    subst hl
    simp [list_to_ranges, hs]
  | cons x rest =>
    rw [hs] at hlt hperm
    have hch : List.Chain' (· < ·) (x :: rest) := List.Pairwise.chain' hlt
    have hrw : list_to_ranges l = scanRanges x x rest := by
      simp only [list_to_ranges, hs]
    rw [hrw]
    refine ⟨fun p hp => (scanRanges_bounds rest x x (le_refl x) hch p hp).2,
      scanRanges_pairwise rest x x (le_refl x) hch, fun y => ?_⟩
    rw [scanRanges_cover rest x x y (le_refl x) hch, ← hperm.mem_iff,
      List.mem_cons]
    constructor
    · rintro (⟨h1, h2⟩ | hr)
      · exact Or.inl (by omega)
      · exact Or.inr hr
    · rintro (rfl | hr)
      · exact Or.inl ⟨le_refl y, le_refl y⟩
      · exact Or.inr hr

/-- Closed instance of `list_to_ranges_spec` on `[3, 1, 2, 7, 8]`. -/
theorem list_to_ranges_spec_witness :
    ([3, 1, 2, 7, 8] : List Int).Nodup ∧
    ((∀ p ∈ list_to_ranges [3, 1, 2, 7, 8], p.1 ≤ p.2) ∧
     List.Pairwise (fun p q : Int × Int => p.2 + 1 < q.1)
       (list_to_ranges [3, 1, 2, 7, 8]) ∧
     (∀ x : Int, (∃ p ∈ list_to_ranges [3, 1, 2, 7, 8], p.1 ≤ x ∧ x ≤ p.2) ↔
       x ∈ ([3, 1, 2, 7, 8] : List Int))) :=
  ⟨by decide, list_to_ranges_spec [3, 1, 2, 7, 8] (by decide)⟩

/-- Helper: `process_data` succeeds exactly with the classified records' rows, in
input order. -/
theorem process_data_ok (data : List Record) : ∀ rows : List Row,
    process_data data = .ok rows → rows = (data.filter classified).map toRow := by
  induction data with
  | nil =>
    intro rows h
    simp only [process_data, Except.ok.injEq] at h
    simp [← h]
  | cons item rest ih =>
    intro rows h
    simp only [process_data] at h
    cases htags : item.tags with
    | none => rw [htags] at h; simp at h
    | some t =>
      rw [htags] at h
      cases hrest : process_data rest with
      | error e => rw [hrest] at h; simp at h
      | ok rows' =>
        rw [hrest] at h
        simp only [Except.ok.injEq] at h
        subst h
        have hr := ih rows' hrest
        have hcl : classified item = is_tricktaker t := by simp [classified, htags]
        rw [List.filter_cons, hcl]
        cases hc : is_tricktaker t <;> simp [hc, hr]

/-- Mapping `renderRow` over a name-sorted list of rows gives CSV records
sorted by their first field. -/
theorem sorted_renderRow (rows : List Row) :
    List.Sorted
      (fun a b : List String => strLe (a.getD 0 "").data (b.getD 0 "").data = true)
      ((rows.insertionSort rowLe).map renderRow) := by
  have h := List.sorted_insertionSort rowLe rows
  refine List.Pairwise.map renderRow ?_ h
  intro a b hab
  simpa [renderRow, nameKey, rowLe] using hab

/-- Claim C3: the pipeline retains exactly the classified records, maps
each to `(name, normalized status, range string)`, and the data rows
written after the header are the retained rows sorted ascending by name
(a permutation of them, sorted by the name key). -/
theorem process_pipeline_spec (data : List Record) (rows : List Row)
    (out : List (List String)) (h : process_data data = .ok rows)
    (hw : write_to_csv rows = .ok out) :
    rows = (data.filter classified).map toRow ∧
    out = csvHeader :: (rows.insertionSort rowLe).map renderRow ∧
    List.Perm (rows.insertionSort rowLe) rows ∧
    List.Sorted rowLe (rows.insertionSort rowLe) ∧
    List.Sorted
      (fun a b : List String => strLe (a.getD 0 "").data (b.getD 0 "").data = true)
      out.tail := by
  have hout : out = csvHeader :: (rows.insertionSort rowLe).map renderRow := by
    unfold write_to_csv at hw
    split at hw
    · simp at hw
    · simp only [Except.ok.injEq] at hw
      exact hw.symm
  refine ⟨process_data_ok data rows h, hout,
    List.perm_insertionSort rowLe rows, List.sorted_insertionSort rowLe rows, ?_⟩
  rw [hout]
  exact sorted_renderRow rows

/-- Closed instance of `process_pipeline_spec` on a two-record input
whose rows come back in reverse name order. -/
theorem process_pipeline_spec_witness :
    ([((some "B", some "public", "2") : Row), (some "A", none, "3")] =
      (([⟨some "B", some [2], some [(220, 1)], some "public"⟩,
         ⟨some "A", some [3], some [(220, 1)], none⟩] : List Record).filter
        classified).map toRow) ∧
    ([["Name", "Status", "Players"], ["A", "", "3"], ["B", "public", "2"]] =
      csvHeader ::
        (([((some "B", some "public", "2") : Row),
           (some "A", none, "3")].insertionSort rowLe).map renderRow)) ∧
    List.Perm
      ([((some "B", some "public", "2") : Row),
        (some "A", none, "3")].insertionSort rowLe)
      [((some "B", some "public", "2") : Row), (some "A", none, "3")] ∧
    List.Sorted rowLe
      ([((some "B", some "public", "2") : Row),
        (some "A", none, "3")].insertionSort rowLe) ∧
    List.Sorted
      (fun a b : List String => strLe (a.getD 0 "").data (b.getD 0 "").data = true)
      ([["Name", "Status", "Players"], ["A", "", "3"],
        ["B", "public", "2"]] : List (List String)).tail :=
  process_pipeline_spec
    [⟨some "B", some [2], some [(220, 1)], some "public"⟩,
     ⟨some "A", some [3], some [(220, 1)], none⟩]
    [(some "B", some "public", "2"), (some "A", none, "3")]
    [["Name", "Status", "Players"], ["A", "", "3"], ["B", "public", "2"]]
    rfl rfl

/-- Claim C6 as stated is false: a record whose `tags` key is absent
(`None`) makes the classifier raise rather than silently exclude. -/
theorem tags_none_counterexample :
    process_data [⟨some "X", some [2], none, some "public"⟩] =
      .error "TypeError: cannot unpack non-iterable NoneType object" := rfl

/-- Claim C6 amended: a record whose `tags` value is the empty list is
silently excluded (no error, no row); a record whose `tags` key is
absent (`None`) raises, and the error propagates. -/
theorem tags_empty_or_none_amended :
    (∀ (rec : Record) (rest : List Record), rec.tags = some [] →
      process_data (rec :: rest) = process_data rest) ∧
    (∀ (rec : Record) (rest : List Record), rec.tags = none →
      process_data (rec :: rest) =
        .error "TypeError: cannot unpack non-iterable NoneType object") := by
  constructor
  · intro rec rest ht
    simp only [process_data, ht]
    cases hpd : process_data rest with
    | error e => simp [hpd]
    | ok rows => simp [hpd, is_tricktaker]
  · intro rec rest ht
    simp only [process_data, ht]

/-- Closed instance of `tags_empty_or_none_amended`'s exclusion clause. -/
theorem tags_empty_or_none_amended_witness :
    process_data [(⟨some "E", none, some [], none⟩ : Record)] =
      process_data [] :=
  tags_empty_or_none_amended.1 ⟨some "E", none, some [], none⟩ [] rfl

/-- Claim C7 as stated is false: a record missing both its name and its
`player_numbers` key raises nothing — the pipeline produces a row for it
(with a `None` name and an empty players string). -/
theorem missing_fields_counterexample :
    process_data [⟨none, none, some [(220, 1)], some "public"⟩] =
      .ok [(none, some "public", "")] := rfl

/-- Claim C7 amended: a missing `display_name_en` or `player_numbers`
key does not raise (`dict.get` returns `None`); the record is processed
normally — classified solely by its tags — with a `None` name and an
empty players string for the missing fields. -/
theorem missing_fields_amended (rec : Record) (rest : List Record)
    (t : List (Int × Int)) (ht : rec.tags = some t) :
    process_data (rec :: rest) =
      (process_data rest).map
        (fun rows => if is_tricktaker t then toRow rec :: rows else rows) ∧
    (rec.player_numbers = none →
      toRow rec = (rec.display_name_en, normalize_status rec.status, "")) := by
  constructor
  · simp only [process_data, ht]
    cases hpd : process_data rest with
    | error e => simp [hpd, Except.map]
    | ok rows => simp [hpd, Except.map]
  · intro hp
    simp [toRow, hp, list_to_ranges_opt, format_range_list]

/-- Closed instance of `missing_fields_amended`. -/
theorem missing_fields_amended_witness :
    process_data [(⟨none, none, some [(220, 1)], none⟩ : Record)] =
      (process_data []).map
        (fun rows => if is_tricktaker [(220, 1)]
          then toRow ⟨none, none, some [(220, 1)], none⟩ :: rows else rows) ∧
    ((⟨none, none, some [(220, 1)], none⟩ : Record).player_numbers = none →
      toRow ⟨none, none, some [(220, 1)], none⟩ = (none, normalize_status none, "")) :=
  missing_fields_amended ⟨none, none, some [(220, 1)], none⟩ [] [(220, 1)] rfl

/-- Claim C8: on the two-record Zebra/Apple input the pipeline yields
exactly one data row, for "Zebra Cards"; and whenever `write_to_csv`
writes anything, the header is the first record written. -/
theorem end_to_end_spec :
    process_data
        [⟨some "Zebra Cards", some [2, 3, 4], some [(220, 1)], some "public"⟩,
         ⟨some "Apple Game", some [2], some [(999, 1)], some "public"⟩] =
      .ok [(some "Zebra Cards", some "public", "2-4")] ∧
    write_to_csv [(some "Zebra Cards", some "public", "2-4")] =
      .ok [["Name", "Status", "Players"], ["Zebra Cards", "public", "2-4"]] ∧
    (∀ (rows : List Row) (out : List (List String)),
      write_to_csv rows = .ok out → out.head? = some csvHeader) := by
  refine ⟨rfl, rfl, ?_⟩
  intro rows out hw
  unfold write_to_csv at hw
  split at hw
  · simp at hw
  · simp only [Except.ok.injEq] at hw
    rw [← hw]
    rfl

/-- Closed instance of `end_to_end_spec`'s header clause: zero qualifying
records still give the header first. -/
theorem end_to_end_spec_witness :
    ([["Name", "Status", "Players"]] : List (List String)).head? =
      some csvHeader :=
  end_to_end_spec.2.2 [] [["Name", "Status", "Players"]] rfl

/-- Claim C9 as stated is false: deriving the row of a record whose
`player_numbers` is `[2, 1]` sorts that list in place, leaving it
`[1, 2]`, not its value as read. -/
theorem mutation_counterexample :
    record_after_process ⟨some "A", some [2, 1], some [(220, 1)], some "public"⟩ ≠
      ⟨some "A", some [2, 1], some [(220, 1)], some "public"⟩ ∧
    (record_after_process
        ⟨some "A", some [2, 1], some [(220, 1)], some "public"⟩).player_numbers =
      some [1, 2] := by
  constructor
  · decide
  · rfl

/-- Claim C9 amended: deriving a record's output row leaves its name,
tags and status fields unchanged, and an absent `player_numbers` stays
absent; a present `player_numbers` list keeps exactly its elements but
is re-ordered ascending in place. -/
theorem mutation_amended (rec : Record) :
    (record_after_process rec).display_name_en = rec.display_name_en ∧
    (record_after_process rec).tags = rec.tags ∧
    (record_after_process rec).status = rec.status ∧
    (rec.player_numbers = none → (record_after_process rec).player_numbers = none) ∧
    (∀ l, rec.player_numbers = some l →
      ∃ l', (record_after_process rec).player_numbers = some l' ∧
        List.Perm l' l ∧ List.Sorted (· ≤ ·) l') := by
  refine ⟨rfl, rfl, rfl, ?_, ?_⟩
  · intro h
    simp [record_after_process, list_to_ranges_effect, h]
  · intro l hl
    by_cases he : l = []
    · subst he
      exact ⟨[], by simp [record_after_process, list_to_ranges_effect, hl],
        List.Perm.refl _, List.sorted_nil⟩
    · refine ⟨pySort l, ?_, List.perm_insertionSort _ l,
        List.sorted_insertionSort _ l⟩
      simp [record_after_process, list_to_ranges_effect, hl, he]

/-- Closed instance of `mutation_amended` at `player_numbers = [2, 1]`. -/
theorem mutation_amended_witness :
    ∃ l', (record_after_process
        ⟨some "A", some [2, 1], some [(220, 1)], some "public"⟩).player_numbers =
        some l' ∧ List.Perm l' [2, 1] ∧ List.Sorted (· ≤ ·) l' :=
  (mutation_amended ⟨some "A", some [2, 1], some [(220, 1)], some "public"⟩).2.2.2.2
    [2, 1] rfl
